import Mathlib

/-!
Verification of the rpg package manager core (src/cli/rpg/src/main.rs).

This file gives a shallow embedding of the catalog / install / verify /
remove engine of the `rpg` package manager and proves properties of it.

Modelling conventions:
* Byte buffers are `List Nat`.
* The persistent Installed-Package Database (a JSON map keyed by package
  name) is an association list with unique keys.
* The filesystem is a list of `(path, isDir)` entries.  `remove_dir_all`
  deletes an entry and everything strictly below it (paths that extend it
  with a `/`); `remove_file` deletes exactly one entry.
* External-crate functionality (sha2's digest via `rutils::compute_checksum`,
  base64 decoding, ed25519 point parsing / verification / public-key
  derivation, gzip+tar extraction, the HTTP fetch, stdin prompt answers, the
  clock) is modelled by function-valued fields of an `Env` record, so all
  theorems quantify over those externals.
* Fallible filesystem deletion and database persistence are modelled by the
  oracles `deleteOk` and `saveOk` in `Env`; where the source propagates an
  error with `?` the model propagates, where it discards with `.ok()` the
  model discards.
* Observable actions (network fetches, downloads, prompts, warnings,
  extraction, database recording/saving) are collected in a trace of
  `Event`s.
-/

abbrev Bytes := List Nat

/-- Catalog entry, mirroring `struct Package` in main.rs. -/
structure Package where
  name : String
  version : String
  description : String
  size : Nat
  dependencies : List String
  checksum : String
  url : String
  signature : Option String
  signer_key : Option String
  capabilities : List String
  capability_level : Option Nat
deriving Repr, DecidableEq

/-- Mirrors `struct InstalledPackage` in main.rs. -/
structure InstalledPackage where
  name : String
  version : String
  install_date : String
  files : List String
deriving Repr, DecidableEq

/-- Mirrors `struct Repository` in main.rs. -/
structure Repository where
  name : String
  url : String
  enabled : Bool
deriving Repr, DecidableEq

/-- Observable actions of the engine. -/
inductive Event where
  | netFetch (url : String)
  | downloaded (package : String)
  | prompt (package : String) (question : String)
  | warned (package : String)
  | extracted (package : String)
  | recorded (package : String)
  | savedDb
deriving Repr, DecidableEq

/-- Errors produced by `verify_package_signature` (main.rs lines 695-748). -/
inductive VerifyError where
  | malformedSignature
  | unknownSigner
  | malformedKey
  | invalidKeyPoint
  | noTrustedSignerMatched
  | signatureInvalid
deriving Repr, DecidableEq

/-- Result-level errors of the engine operations. -/
inductive PErr where
  | packageNotFound (name : String)
  | networkError
  | checksumMismatch
  | signatureInvalid (e : VerifyError)
  | archiveError
  | databaseIoError
  | outOfFuel
deriving Repr, DecidableEq

/-- Association-list lookup keyed by `String` (models `HashMap` lookups). -/
def lookupA {β : Type} (k : String) : List (String × β) → Option β
  | [] => none
  | e :: es => if e.1 == k then some e.2 else lookupA k es

/-- The Installed-Package Database: name, record pairs. -/
abbrev DB := List (String × InstalledPackage)

def dbRemove : DB → String → DB
  | [], _ => []
  | e :: es, k => if e.1 == k then dbRemove es k else e :: dbRemove es k

/-- HashMap::insert semantics: the new binding replaces any old one. -/
def dbInsert (db : DB) (k : String) (v : InstalledPackage) : DB :=
  (k, v) :: dbRemove db k

def dbContains (db : DB) (k : String) : Bool :=
  (lookupA k db).isSome

/-- The filesystem: entries `(path, isDir)`. -/
abbrev FS := List (String × Bool)

def fsExists (fs : FS) (p : String) : Bool :=
  fs.any (fun e => e.1 == p)

def fsIsDir (fs : FS) (p : String) : Bool :=
  fs.any (fun e => e.1 == p && e.2)

/-- True when `child` lies strictly inside directory `dir` (the directory
path extended with a separator is a prefix of the child path). -/
def isUnder (child dir : String) : Bool :=
  (dir ++ "/").data.isPrefixOf child.data

/-- Model of `std::fs::remove_dir_all`. -/
def fsRemoveDirAll (fs : FS) (p : String) : FS :=
  fs.filter (fun e => !(e.1 == p || isUnder e.1 p))

/-- Model of `std::fs::remove_file`. -/
def fsRemoveFile (fs : FS) (p : String) : FS :=
  fs.filter (fun e => !(e.1 == p))

def fsAddAll (fs : FS) (entries : List (String × Bool)) : FS :=
  entries.foldl (fun acc e => if fsExists acc e.1 then acc else e :: acc) fs

def cacheAdd (c : List String) (a : String) : List String :=
  if c.contains a then c else a :: c

def cacheRemove (c : List String) (a : String) : List String :=
  c.filter (fun x => !(x == a))

/-- Engine state: persisted database, filesystem, artifact cache. -/
structure PMState where
  installed : DB
  fs : FS
  cache : List String
deriving Repr, DecidableEq

/-- Static environment: configuration plus the external collaborators
(network, crypto crates, archive extraction, prompts, clock, fs oracles). -/
structure Env where
  repos : List Repository
  indexes : List (String × List (String × Package))
  fetch : String → Option Bytes
  checksum : Bytes → String
  b64decode : String → Option Bytes
  parseKey : Bytes → Bool
  verify : Bytes → Bytes → Bytes → Bool
  derivePub : Bytes → Bytes
  trustedKeys : List (String × Bytes)
  promptAnswer : String → String → Bool
  extract : Bytes → Option (List (String × Bool))
  now : String
  saveOk : Bool
  deleteOk : String → Bool

deriving instance DecidableEq for Except

/-- Outcome of an engine operation: its trace, result and final state. -/
structure Out where
  trace : List Event
  res : Except PErr Unit
  state : PMState
deriving Repr, DecidableEq

/-- Scan of the enabled repositories' cached indexes, first match wins
(main.rs `find_package`, lines 548-568).  A disabled repository or a
repository without a cached (parseable) index is skipped. -/
def findPackageIn (indexes : List (String × List (String × Package))) :
    List Repository → String → Option (Package × String)
  | [], _ => none
  | r :: rs, name =>
    if !r.enabled then findPackageIn indexes rs name
    else
      match lookupA r.name indexes with
      | none => findPackageIn indexes rs name
      | some pkgs =>
        match lookupA name pkgs with
        | some p => some (p, r.name)
        | none => findPackageIn indexes rs name

def find_package (env : Env) (name : String) : Option (Package × String) :=
  findPackageIn env.indexes env.repos name

/-- Loop over the trusted-keys directory (main.rs lines 722-741): skip
entries whose stored length is not 32 or that do not parse as a point,
accept the first key for which verification succeeds. -/
def findVerifying (env : Env) (data sigBytes : Bytes) :
    List (String × Bytes) → Option Bytes
  | [] => none
  | e :: es =>
    if e.2.length == 32 && env.parseKey e.2 && env.verify e.2 data sigBytes then
      some e.2
    else findVerifying env data sigBytes es

/-- Model of `verify_package_signature` (main.rs lines 695-748). -/
def verify_package_signature (env : Env) (data : Bytes) (sigStr : String)
    (signerKey : Option String) : Except VerifyError Unit :=
  match env.b64decode sigStr with
  | none => .error .malformedSignature
  | some sigBytes =>
    if sigBytes.length != 64 then .error .malformedSignature
    else
      match signerKey with
      | some keyId =>
        match lookupA keyId env.trustedKeys with
        | none => .error .unknownSigner
        | some keyData =>
          if keyData.length != 32 then .error .malformedKey
          else if !env.parseKey keyData then .error .invalidKeyPoint
          else if env.verify keyData data sigBytes then .ok ()
          else .error .signatureInvalid
      | none =>
        match findVerifying env data sigBytes env.trustedKeys with
        | some keyData =>
          if env.verify keyData data sigBytes then .ok ()
          else .error .signatureInvalid
        | none => .error .noTrustedSignerMatched

/-- Model of ed25519-dalek 2.x `SigningKey::from_keypair_bytes`: the 64
bytes are secret seed then embedded public key; construction succeeds only
when the embedded half parses as a curve point and equals the public key
derived from the secret half. -/
def from_keypair_bytes (env : Env) (bytes : Bytes) : Option Bytes :=
  if bytes.length != 64 then none
  else
    let secret := bytes.take 32
    let embedded := bytes.drop 32
    if env.parseKey embedded && (env.derivePub secret == embedded) then
      some secret
    else none

/-- A key store: file name to contents, plus the unix mode set on a file. -/
structure KeyStore where
  files : List (String × Bytes)
  modes : List (String × Nat)
deriving Repr, DecidableEq

/-- Model of `generate_keypair` (main.rs lines 750-784).  `rnd` is the
64-byte OsRng output.  On a `SigningKey::from_keypair_bytes` failure the
`?` operator returns before anything is written. -/
def generate_keypair (env : Env) (rnd : Bytes) (ks : KeyStore) (name : String) :
    Except Unit KeyStore :=
  match from_keypair_bytes env rnd with
  | none => .error ()
  | some secret =>
    .ok { files := (name ++ ".pub", env.derivePub secret) ::
                   (name ++ ".secret", secret) :: ks.files,
          modes := (name ++ ".secret", 0o600) :: ks.modes }

/-- Model of `is_file_shared` (main.rs lines 628-640). -/
def is_file_shared (installed : DB) (file : String) (excludePkg : String) : Bool :=
  installed.any (fun e => !(e.1 == excludePkg) && e.2.files.contains file)

/-- The file-deletion loop of `remove_package` (main.rs lines 602-618).
Deletion errors are discarded (`.ok()` in the source), modelled by the
`deleteOk` oracle leaving the filesystem unchanged on failure. -/
def removeOwnedFiles (env : Env) (installed : DB) (package : String) :
    List String → FS → FS
  | [], fs => fs
  | file :: rest, fs =>
    let fs' :=
      if fsExists fs file then
        if is_file_shared installed file package then fs
        else if !env.deleteOk file then fs
        else if fsIsDir fs file then fsRemoveDirAll fs file
        else fsRemoveFile fs file
      else fs
    removeOwnedFiles env installed package rest fs'

/-- Outcome of `remove_package` (it emits no events we track). -/
structure RemoveOut where
  res : Except PErr Unit
  state : PMState
deriving Repr, DecidableEq

/-- Model of `remove_package` (main.rs lines 592-626).  A missing package
prints a message and returns `Ok`.  Otherwise owned files are deleted
(skipping shared ones), the database entry is dropped and the database is
persisted; only the persistence step can fail. -/
def remove_package (env : Env) (st : PMState) (package : String)
    (_purge : Bool) : RemoveOut :=
  match lookupA package st.installed with
  | none => ⟨.ok (), st⟩
  | some installedPkg =>
    let fs' := removeOwnedFiles env st.installed package installedPkg.files st.fs
    if env.saveOk then
      ⟨.ok (), { st with fs := fs', installed := dbRemove st.installed package }⟩
    else
      ⟨.error .databaseIoError, { st with fs := fs' }⟩

/-- Artifact file name in the cache dir: `"{package}_{version}.tar.gz"`. -/
def artifactName (package : String) (pkg : Package) : String :=
  package ++ "_" ++ pkg.version ++ ".tar.gz"

/-- Extraction-and-recording tail of `install_package` (main.rs lines
510-545): stop after download in download-only mode, otherwise extract the
archive, record the entry and persist the database. -/
def finishOut (env : Env) (package : String) (pkg : Package) (dlOnly : Bool)
    (data : Bytes) (tr : List Event) (st : PMState) : Out :=
  if dlOnly then ⟨tr, .ok (), st⟩
  else
    match env.extract data with
    | none => ⟨tr, .error .archiveError, st⟩
    | some entries =>
      let files := entries.map Prod.fst
      let st3 := { st with fs := fsAddAll st.fs entries }
      if env.saveOk then
        ⟨tr ++ [.extracted package, .recorded package, .savedDb], .ok (),
         { st3 with installed :=
             dbInsert st3.installed package ⟨package, pkg.version, env.now, files⟩ }⟩
      else
        ⟨tr ++ [.extracted package], .error .databaseIoError, st3⟩

/-- Download / checksum / signature phase of `install_package` (main.rs
lines 482-513).  On a checksum mismatch or signature failure the artifact
is deleted and the corresponding error returned. -/
def downloadPhase (env : Env) (package : String) (pkg : Package)
    (dlOnly : Bool) (st : PMState) : Out :=
  match env.fetch pkg.url with
  | none => ⟨[.netFetch pkg.url], .error .networkError, st⟩
  | some data =>
    let art := artifactName package pkg
    let st2 := { st with cache := cacheAdd st.cache art }
    let dlTr := [Event.netFetch pkg.url, Event.downloaded package]
    if env.checksum data != pkg.checksum && !(pkg.checksum == "") then
      ⟨dlTr, .error .checksumMismatch,
       { st2 with cache := cacheRemove st2.cache art }⟩
    else
      match pkg.signature with
      | some sig =>
        match verify_package_signature env data sig pkg.signer_key with
        | .error e =>
          ⟨dlTr, .error (.signatureInvalid e),
           { st2 with cache := cacheRemove st2.cache art }⟩
        | .ok _ => finishOut env package pkg dlOnly data dlTr st2
      | none => finishOut env package pkg dlOnly data (dlTr ++ [.warned package]) st2

/-- The dependency loop of `install_package` (main.rs lines 473-480):
dependencies already in the database are skipped, the rest are handed to
`step`; a failed sub-install aborts the loop. -/
def runDeps (step : String → PMState → Out) : List String → PMState → Out
  | [], st => ⟨[], .ok (), st⟩
  | d :: rest, st =>
    if dbContains st.installed d then runDeps step rest st
    else
      let sub := step d st
      match sub.res with
      | .error e => ⟨sub.trace, .error e, sub.state⟩
      | .ok _ =>
        let k := runDeps step rest sub.state
        ⟨sub.trace ++ k.trace, k.res, k.state⟩

/-- One invocation of `install_package` (main.rs lines 426-546), with the
recursive sub-install abstracted as `sub`: already-installed short circuit,
capability and dependency prompts, dependency loop, then the download /
verify / extract / record phase. -/
def installBody (env : Env) (sub : String → PMState → Out) (package : String)
    (yes dlOnly : Bool) (st : PMState) : Out :=
  if dbContains st.installed package then ⟨[], .ok (), st⟩
  else
    match find_package env package with
    | none => ⟨[], .error (.packageNotFound package), st⟩
    | some (pkg, _repo) =>
      let capTr : List Event :=
        if !pkg.capabilities.isEmpty && !yes then
          [.prompt package "capabilities"] else []
      if !pkg.capabilities.isEmpty && !yes &&
          !env.promptAnswer package "capabilities" then
        ⟨capTr, .ok (), st⟩
      else
        let depTr : List Event :=
          if !pkg.dependencies.isEmpty && !yes then
            [.prompt package "dependencies"] else []
        if !pkg.dependencies.isEmpty && !yes &&
            !env.promptAnswer package "dependencies" then
          ⟨capTr ++ depTr, .ok (), st⟩
        else
          let depsOut := runDeps sub pkg.dependencies st
          match depsOut.res with
          | .error e => ⟨capTr ++ depTr ++ depsOut.trace, .error e, depsOut.state⟩
          | .ok _ =>
            let dl := downloadPhase env package pkg dlOnly depsOut.state
            ⟨capTr ++ depTr ++ depsOut.trace ++ dl.trace, dl.res, dl.state⟩

/-- Model of `install_package`, with a fuel bound on the recursion depth
(the source recurses without any cycle detection).  Sub-installs of
dependencies run with `yes = true` and `download_only = false`
(main.rs line 477). -/
def install (env : Env) : Nat → String → Bool → Bool → PMState → Out
  | 0, _, _, _, st => ⟨[], .error .outOfFuel, st⟩
  | fuel + 1, package, yes, dlOnly, st =>
    installBody env (fun d s => install env fuel d true false s)
      package yes dlOnly st

/-- The update-scan loop of `upgrade_all` (main.rs lines 901-914): walk the
installed map, queue resolvable packages whose catalog version differs,
warn about unresolvable ones. -/
def upgradeScan (env : Env) : DB → List Event × List String
  | [] => ([], [])
  | (name, ip) :: rest =>
    let tail := upgradeScan env rest
    match find_package env name with
    | some (pkg, _) =>
      if pkg.version != ip.version then (tail.1, name :: tail.2)
      else (tail.1, tail.2)
    | none => (.warned name :: tail.1, tail.2)

/-- The upgrade-processing loop of `upgrade_all` (main.rs lines 937-947):
remove the old version, then install the new one. -/
def runQueue (env : Env) (fuel : Nat) : List String → PMState → Out
  | [], st => ⟨[], .ok (), st⟩
  | q :: rest, st =>
    let r := remove_package env st q false
    match r.res with
    | .error e => ⟨[], .error e, r.state⟩
    | .ok _ =>
      let i := install env fuel q true false r.state
      match i.res with
      | .error e => ⟨i.trace, .error e, i.state⟩
      | .ok _ =>
        let k := runQueue env fuel rest i.state
        ⟨i.trace ++ k.trace, k.res, k.state⟩

/-- Model of `upgrade_all` (main.rs lines 896-953). -/
def upgrade_all (env : Env) (fuel : Nat) (yes : Bool) (st : PMState) : Out :=
  let scan := upgradeScan env st.installed
  if scan.2.isEmpty then ⟨scan.1, .ok (), st⟩
  else
    let promptTr : List Event :=
      if yes then [] else [.prompt "upgrade" "continue"]
    if !yes && !env.promptAnswer "upgrade" "continue" then
      ⟨scan.1 ++ promptTr, .ok (), st⟩
    else
      let out := runQueue env fuel scan.2 st
      ⟨scan.1 ++ promptTr ++ out.trace, out.res, out.state⟩

/-! ### Basic lemmas about the association-list database and the cache -/

theorem lookupA_dbRemove (db : DB) (a k : String) :
    lookupA a (dbRemove db k) = if a = k then none else lookupA a db := by
  induction db with
  | nil => simp [lookupA, dbRemove]
  | cons e es ih =>
    by_cases hek : e.1 = k
    · by_cases hak : a = k
      · subst hak
        simp [dbRemove, lookupA, hek, ih]
      · have hea : ¬ e.1 = a := by rw [hek]; exact fun h => hak h.symm
        have hka : ¬ k = a := fun h => hak h.symm
        simp [dbRemove, lookupA, hek, hea, ih, hak, hka]
    · by_cases hea : e.1 = a
      · have hak : ¬ a = k := by rw [← hea]; exact hek
        simp [dbRemove, lookupA, hek, hea, hak]
      · simp [dbRemove, lookupA, hek, hea, ih]

theorem lookupA_dbInsert (db : DB) (a k : String) (v : InstalledPackage) :
    lookupA a (dbInsert db k v) = if a = k then some v else lookupA a db := by
  by_cases hak : a = k
  · subst hak; simp [dbInsert, lookupA]
  · have hka : ¬ k = a := fun h => hak h.symm
    simp [dbInsert, lookupA, hka, lookupA_dbRemove, hak]

theorem dbContains_dbInsert (db : DB) (a k : String) (v : InstalledPackage) :
    dbContains (dbInsert db k v) a = (a == k || dbContains db a) := by
  unfold dbContains
  rw [lookupA_dbInsert]
  by_cases hak : a = k <;> simp [hak]

theorem dbContains_dbRemove (db : DB) (a k : String) :
    dbContains (dbRemove db k) a = (!(a == k) && dbContains db a) := by
  unfold dbContains
  rw [lookupA_dbRemove]
  by_cases hak : a = k <;> simp [hak]

theorem cacheRemove_not_mem (c : List String) (a : String) :
    a ∉ cacheRemove c a := by
  unfold cacheRemove
  intro h
  have := (List.mem_filter.mp h).2
  simp at this

/-! ### Shape lemmas for the download / extract / record phase -/

theorem finishOut_dl (env : Env) (p : String) (pkg : Package) (data : Bytes)
    (tr : List Event) (st : PMState) :
    finishOut env p pkg true data tr st = ⟨tr, .ok (), st⟩ := by
  simp [finishOut]

theorem finishOut_shape (env : Env) (p : String) (pkg : Package) (dl : Bool)
    (data : Bytes) (tr : List Event) (st : PMState) :
    ((finishOut env p pkg dl data tr st).state.installed = st.installed ∨
      ∃ e, (finishOut env p pkg dl data tr st).state.installed =
          dbInsert st.installed p e ∧
        Event.recorded p ∈ (finishOut env p pkg dl data tr st).trace) ∧
    (∀ ev ∈ (finishOut env p pkg dl data tr st).trace,
      ev ∈ tr ∨ ev = Event.extracted p ∨ ev = Event.recorded p ∨
        ev = Event.savedDb) := by
  unfold finishOut
  split
  · exact ⟨Or.inl rfl, fun ev hev => Or.inl hev⟩
  · split
    · exact ⟨Or.inl rfl, fun ev hev => Or.inl hev⟩
    · split
      · refine ⟨Or.inr ⟨_, rfl, ?_⟩, ?_⟩
        · simp
        · intro ev hev
          rcases List.mem_append.mp hev with h | h
          · exact Or.inl h
          · simp at h
            rcases h with h | h | h <;> simp [h]
      · refine ⟨Or.inl rfl, ?_⟩
        intro ev hev
        rcases List.mem_append.mp hev with h | h
        · exact Or.inl h
        · simp at h
          simp [h]

theorem finishOut_ok (env : Env) (p : String) (pkg : Package) (data : Bytes)
    (tr : List Event) (st : PMState)
    (h : (finishOut env p pkg false data tr st).res = .ok ()) :
    (∃ es, env.extract data = some es) ∧ env.saveOk = true ∧
    (finishOut env p pkg false data tr st).trace =
      tr ++ [Event.extracted p, Event.recorded p, Event.savedDb] ∧
    dbContains (finishOut env p pkg false data tr st).state.installed p = true := by
  unfold finishOut at *
  simp only [if_neg (by simp : ¬ (false = true))] at *
  split at h
  · simp at h
  · rename_i es hes
    split at h
    · rename_i hsave
      refine ⟨⟨es, hes⟩, hsave, ?_, ?_⟩
      · simp [hes, hsave]
      · simp [hes, hsave, dbContains_dbInsert]
    · simp at h

theorem finishOut_res_cases (env : Env) (p : String) (pkg : Package) (dl : Bool)
    (data : Bytes) (tr : List Event) (st : PMState) :
    (finishOut env p pkg dl data tr st).res = .ok () ∨
    (finishOut env p pkg dl data tr st).res = .error .archiveError ∨
    (finishOut env p pkg dl data tr st).res = .error .databaseIoError := by
  unfold finishOut
  split
  · exact Or.inl rfl
  · split
    · exact Or.inr (Or.inl rfl)
    · split
      · exact Or.inl rfl
      · exact Or.inr (Or.inr rfl)

theorem downloadPhase_shape (env : Env) (p : String) (pkg : Package)
    (dl : Bool) (st : PMState) :
    ((downloadPhase env p pkg dl st).state.installed = st.installed ∨
      ∃ e, (downloadPhase env p pkg dl st).state.installed =
          dbInsert st.installed p e ∧
        Event.recorded p ∈ (downloadPhase env p pkg dl st).trace) ∧
    (∀ ev ∈ (downloadPhase env p pkg dl st).trace,
      ev = Event.netFetch pkg.url ∨ ev = Event.downloaded p ∨
      ev = Event.warned p ∨ ev = Event.extracted p ∨
      ev = Event.recorded p ∨ ev = Event.savedDb) := by
  unfold downloadPhase
  split
  · constructor
    · exact Or.inl rfl
    · intro ev hev; simp at hev; simp [hev]
  · rename_i data hdata
    split
    · constructor
      · exact Or.inl rfl
      · intro ev hev; simp at hev; rcases hev with h | h <;> simp [h]
    · split
      · split
        · constructor
          · exact Or.inl rfl
          · intro ev hev; simp at hev; rcases hev with h | h <;> simp [h]
        · have hsh := finishOut_shape env p pkg dl data
            [Event.netFetch pkg.url, Event.downloaded p]
            { st with cache := cacheAdd st.cache (artifactName p pkg) }
          constructor
          · rcases hsh.1 with h | ⟨e, he, hrec⟩
            · exact Or.inl h
            · exact Or.inr ⟨e, he, hrec⟩
          · intro ev hev
            rcases hsh.2 ev hev with h | h | h | h
            · simp at h; rcases h with h | h <;> simp [h]
            · simp [h]
            · simp [h]
            · simp [h]
      · have hsh := finishOut_shape env p pkg dl data
          ([Event.netFetch pkg.url, Event.downloaded p] ++ [Event.warned p])
          { st with cache := cacheAdd st.cache (artifactName p pkg) }
        constructor
        · rcases hsh.1 with h | ⟨e, he, hrec⟩
          · exact Or.inl h
          · exact Or.inr ⟨e, he, hrec⟩
        · intro ev hev
          rcases hsh.2 ev hev with h | h | h | h
          · simp at h; rcases h with h | h | h <;> simp [h]
          · simp [h]
          · simp [h]
          · simp [h]

theorem downloadPhase_dlOnly (env : Env) (p : String) (pkg : Package)
    (st : PMState) :
    (downloadPhase env p pkg true st).state.installed = st.installed ∧
    (∀ ev ∈ (downloadPhase env p pkg true st).trace,
      ev = Event.netFetch pkg.url ∨ ev = Event.downloaded p ∨
        ev = Event.warned p) ∧
    ((downloadPhase env p pkg true st).res = .ok () →
      Event.downloaded p ∈ (downloadPhase env p pkg true st).trace) := by
  unfold downloadPhase
  split
  · refine ⟨rfl, ?_, ?_⟩
    · intro ev hev; simp at hev; simp [hev]
    · intro h; simp at h
  · rename_i data hdata
    split
    · refine ⟨rfl, ?_, ?_⟩
      · intro ev hev; simp at hev; rcases hev with h | h <;> simp [h]
      · intro h; simp at h
    · split
      · split
        · refine ⟨rfl, ?_, ?_⟩
          · intro ev hev; simp at hev; rcases hev with h | h <;> simp [h]
          · intro h; simp at h
        · rw [finishOut_dl]
          refine ⟨rfl, ?_, ?_⟩
          · intro ev hev; simp at hev; rcases hev with h | h <;> simp [h]
          · intro _; simp
      · rw [finishOut_dl]
        refine ⟨rfl, ?_, ?_⟩
        · intro ev hev; simp at hev; rcases hev with h | h | h <;> simp [h]
        · intro _; simp

theorem downloadPhase_ok (env : Env) (p : String) (pkg : Package)
    (st : PMState)
    (h : (downloadPhase env p pkg false st).res = .ok ()) :
    (∃ tr0, (downloadPhase env p pkg false st).trace =
      tr0 ++ [Event.extracted p, Event.recorded p, Event.savedDb]) ∧
    dbContains (downloadPhase env p pkg false st).state.installed p = true := by
  unfold downloadPhase at h ⊢
  cases hdata : env.fetch pkg.url with
  | none => rw [hdata] at h; simp at h
  | some data =>
    simp only [hdata] at h ⊢
    by_cases hcs : (env.checksum data != pkg.checksum && !(pkg.checksum == "")) = true
    · simp only [hcs, if_true] at h
      simp at h
    · simp only [Bool.not_eq_true] at hcs
      simp only [hcs, Bool.false_eq_true, if_false] at h ⊢
      cases hsig : pkg.signature with
      | some sig =>
        simp only [hsig] at h ⊢
        cases hver : verify_package_signature env data sig pkg.signer_key with
        | error e => simp only [hver] at h; simp at h
        | ok u =>
          cases u
          simp only [hver] at h ⊢
          have hok := finishOut_ok env p pkg data
            [Event.netFetch pkg.url, Event.downloaded p]
            { st with cache := cacheAdd st.cache (artifactName p pkg) } h
          exact ⟨⟨_, hok.2.2.1⟩, hok.2.2.2⟩
      | none =>
        simp only [hsig] at h ⊢
        have hok := finishOut_ok env p pkg data
          ([Event.netFetch pkg.url, Event.downloaded p] ++ [Event.warned p])
          { st with cache := cacheAdd st.cache (artifactName p pkg) } h
        exact ⟨⟨_, hok.2.2.1⟩, hok.2.2.2⟩

theorem downloadPhase_checksum_mismatch (env : Env) (p : String)
    (pkg : Package) (dl : Bool) (st : PMState) (data : Bytes)
    (hfetch : env.fetch pkg.url = some data)
    (hne : env.checksum data ≠ pkg.checksum) (hnz : pkg.checksum ≠ "") :
    downloadPhase env p pkg dl st =
      ⟨[Event.netFetch pkg.url, Event.downloaded p], .error .checksumMismatch,
       ⟨st.installed, st.fs,
        cacheRemove (cacheAdd st.cache (artifactName p pkg)) (artifactName p pkg)⟩⟩ := by
  unfold downloadPhase
  rw [hfetch]
  have hcond : (env.checksum data != pkg.checksum && !(pkg.checksum == "")) = true := by
    simp [hne, hnz]
  simp only [hcond, if_true]

theorem downloadPhase_empty_checksum (env : Env) (p : String) (pkg : Package)
    (dl : Bool) (st : PMState) (hz : pkg.checksum = "") :
    (downloadPhase env p pkg dl st).res ≠ .error .checksumMismatch := by
  unfold downloadPhase
  cases hdata : env.fetch pkg.url with
  | none => simp
  | some data =>
    have hcond : (env.checksum data != pkg.checksum && !(pkg.checksum == "")) = false := by
      simp [hz]
    simp only [hcond, Bool.false_eq_true, if_false]
    cases hsig : pkg.signature with
    | some sig =>
      cases hver : verify_package_signature env data sig pkg.signer_key with
      | error e => simp [hver]
      | ok u =>
        cases u
        simp only [hver]
        rcases finishOut_res_cases env p pkg dl data
          [Event.netFetch pkg.url, Event.downloaded p]
          { st with cache := cacheAdd st.cache (artifactName p pkg) } with
          h | h | h <;> simp [h]
    | none =>
      rcases finishOut_res_cases env p pkg dl data
        [Event.netFetch pkg.url, Event.downloaded p, Event.warned p]
        { st with cache := cacheAdd st.cache (artifactName p pkg) } with
        h | h | h <;> simp [h]

/-! ### Lemmas about the dependency loop -/

theorem runDeps_pres (step : String → PMState → Out) (P : PMState → Prop)
    (hstep : ∀ d s, P s → P (step d s).state) :
    ∀ deps s, P s → P (runDeps step deps s).state := by
  intro deps
  induction deps with
  | nil => intro s hs; simpa [runDeps]
  | cons d rest ih =>
    intro s hs
    unfold runDeps
    split
    · exact ih s hs
    · cases hsub : (step d s).res with
      | error e => simpa [hsub] using hstep d s hs
      | ok u =>
        cases u
        simp only [hsub]
        exact ih _ (hstep d s hs)

theorem runDeps_trace_sub (step : String → PMState → Out) (Q : Event → Prop)
    (hstep : ∀ d s, ∀ ev ∈ (step d s).trace, Q ev) :
    ∀ deps s, ∀ ev ∈ (runDeps step deps s).trace, Q ev := by
  intro deps
  induction deps with
  | nil => intro s ev hev; simp [runDeps] at hev
  | cons d rest ih =>
    intro s ev hev
    unfold runDeps at hev
    split at hev
    · exact ih s ev hev
    · revert hev
      cases hsub : (step d s).res with
      | error e =>
        intro hev
        simp only [hsub] at hev
        exact hstep d s ev hev
      | ok u =>
        cases u
        intro hev
        simp only [hsub] at hev
        rcases List.mem_append.mp hev with h | h
        · exact hstep d s ev h
        · exact ih _ ev h

theorem runDeps_newrec (step : String → PMState → Out)
    (hstep : ∀ d s a, dbContains (step d s).state.installed a = true →
      dbContains s.installed a = true ∨ Event.recorded a ∈ (step d s).trace) :
    ∀ deps s a, dbContains (runDeps step deps s).state.installed a = true →
      dbContains s.installed a = true ∨
        Event.recorded a ∈ (runDeps step deps s).trace := by
  intro deps
  induction deps with
  | nil => intro s a h; simp [runDeps] at h; exact Or.inl h
  | cons d rest ih =>
    intro s a h
    unfold runDeps at h ⊢
    split at h
    · rename_i hd
      rw [if_pos hd]
      exact ih s a h
    · rename_i hd
      rw [if_neg hd]
      revert h
      cases hsub : (step d s).res with
      | error e =>
        intro h
        simp only [hsub] at h ⊢
        exact hstep d s a h
      | ok u =>
        cases u
        intro h
        simp only [hsub] at h ⊢
        rcases ih _ a h with h2 | h2
        · rcases hstep d s a h2 with h3 | h3
          · exact Or.inl h3
          · exact Or.inr (List.mem_append.mpr (Or.inl h3))
        · exact Or.inr (List.mem_append.mpr (Or.inr h2))

theorem runDeps_ok_all (step : String → PMState → Out)
    (hrec : ∀ d s, (step d s).res = .ok () →
      dbContains (step d s).state.installed d = true)
    (hmono : ∀ d s a, dbContains s.installed a = true →
      dbContains (step d s).state.installed a = true) :
    ∀ deps s, (runDeps step deps s).res = .ok () →
      ∀ d ∈ deps, dbContains (runDeps step deps s).state.installed d = true := by
  intro deps
  induction deps with
  | nil => intro s _ d hd; simp at hd
  | cons d0 rest ih =>
    intro s hok d hd
    have loopMono : ∀ a s', dbContains s'.installed a = true →
        dbContains (runDeps step rest s').state.installed a = true := by
      intro a s' ha
      exact runDeps_pres step (fun t => dbContains t.installed a = true)
        (fun d' t ht => hmono d' t a ht) rest s' ha
    unfold runDeps at hok ⊢
    split at hok
    · rename_i hin
      rw [if_pos hin]
      rcases List.mem_cons.mp hd with h | h
      · subst h; exact loopMono d s hin
      · exact ih s hok d h
    · rename_i hin
      rw [if_neg hin]
      revert hok
      cases hsub : (step d0 s).res with
      | error e => intro hok; simp only [hsub] at hok; simp at hok
      | ok u =>
        cases u
        intro hok
        simp only [hsub] at hok ⊢
        rcases List.mem_cons.mp hd with h | h
        · subst h
          exact loopMono d _ (hrec d s hsub)
        · exact ih _ hok d h

/-- Dependency chains: `chainLinked env C n` says `C = [c0, …, ck]` is a
stack of in-progress installs, each element depending on the next, with the
current call `n` a dependency of the last element. -/
def chainLinked (env : Env) : List String → String → Prop
  | [], _ => True
  | [c], n => n ∈ (match find_package env c with
      | some (p, _) => p.dependencies
      | none => [])
  | c :: c2 :: rest, n => c2 ∈ (match find_package env c with
      | some (p, _) => p.dependencies
      | none => []) ∧ chainLinked env (c2 :: rest) n

/-- Dependencies of a name as resolved through the catalog. -/
def depsOf (env : Env) (m : String) : List String :=
  match find_package env m with
  | some (p, _) => p.dependencies
  | none => []

theorem chainLinked_snoc (env : Env) (n d : String) :
    ∀ C, chainLinked env C n → d ∈ depsOf env n →
      chainLinked env (C ++ [n]) d := by
  intro C
  induction C with
  | nil =>
    intro _ hd
    simpa [chainLinked, depsOf] using hd
  | cons c rest ih =>
    cases rest with
    | nil =>
      intro hC hd
      refine ⟨by simpa [chainLinked] using hC, ?_⟩
      simpa [chainLinked, depsOf] using hd
    | cons c2 rest2 =>
      intro hC hd
      exact ⟨hC.1, ih hC.2 hd⟩

theorem chainLinked_mem (env : Env) (n : String) :
    ∀ C, chainLinked env C n → ∀ c ∈ C,
      ∃ d ∈ depsOf env c, d ∈ C ∨ d = n := by
  intro C
  induction C with
  | nil => intro _ c hc; simp at hc
  | cons c0 rest ih =>
    cases rest with
    | nil =>
      intro hC c hc
      simp at hc
      subst hc
      refine ⟨n, ?_, Or.inr rfl⟩
      simpa [chainLinked, depsOf] using hC
    | cons c2 rest2 =>
      intro hC c hc
      rcases List.mem_cons.mp hc with h | h
      · subst h
        refine ⟨c2, ?_, Or.inl (List.mem_cons_of_mem _ (List.mem_cons_self _ _))⟩
        simpa [depsOf] using hC.1
      · rcases ih hC.2 c h with ⟨d, hd1, hd2⟩
        refine ⟨d, hd1, ?_⟩
        rcases hd2 with h2 | h2
        · exact Or.inl (List.mem_cons_of_mem _ h2)
        · exact Or.inr h2

theorem runDeps_chain (step : String → PMState → Out) (Cset : List String)
    (hrec : ∀ d s, (step d s).res = .ok () →
      dbContains (step d s).state.installed d = true) :
    ∀ deps s,
      (∀ d ∈ deps, ∀ s',
        (∀ c ∈ Cset, dbContains s'.installed c = false) →
        (step d s').res = .ok () →
        (∀ c ∈ Cset, dbContains (step d s').state.installed c = false ∧
          Event.recorded c ∉ (step d s').trace ∧
          Event.extracted c ∉ (step d s').trace)) →
      (∀ c ∈ Cset, dbContains s.installed c = false) →
      (runDeps step deps s).res = .ok () →
      (∀ c ∈ Cset,
        dbContains (runDeps step deps s).state.installed c = false ∧
        Event.recorded c ∉ (runDeps step deps s).trace ∧
        Event.extracted c ∉ (runDeps step deps s).trace) ∧
      (∀ d ∈ deps, d ∉ Cset) := by
  intro deps
  induction deps with
  | nil =>
    intro s _ hs _
    refine ⟨?_, ?_⟩
    · intro c hc
      exact ⟨hs c hc, by simp [runDeps], by simp [runDeps]⟩
    · intro d hd; simp at hd
  | cons d0 rest ih =>
    intro s hstep hs hok
    have hstepRest : ∀ d ∈ rest, ∀ s',
        (∀ c ∈ Cset, dbContains s'.installed c = false) →
        (step d s').res = .ok () →
        (∀ c ∈ Cset, dbContains (step d s').state.installed c = false ∧
          Event.recorded c ∉ (step d s').trace ∧
          Event.extracted c ∉ (step d s').trace) :=
      fun d hd => hstep d (List.mem_cons_of_mem _ hd)
    unfold runDeps at hok ⊢
    split at hok
    · rename_i hin
      rw [if_pos hin]
      have hd0 : d0 ∉ Cset := by
        intro hmem
        rw [hs d0 hmem] at hin
        exact Bool.false_ne_true hin
      rcases ih s hstepRest hs hok with ⟨hmain, hrest⟩
      refine ⟨hmain, ?_⟩
      intro d hd
      rcases List.mem_cons.mp hd with h | h
      · subst h; exact hd0
      · exact hrest d h
    · rename_i hin
      rw [if_neg hin]
      revert hok
      cases hsub : (step d0 s).res with
      | error e => intro hok; simp only [hsub] at hok; simp at hok
      | ok u =>
        cases u
        intro hok
        simp only [hsub] at hok ⊢
        have hinv := hstep d0 (List.mem_cons_self _ _) s hs hsub
        have hd0 : d0 ∉ Cset := by
          intro hmem
          have h1 := (hinv d0 hmem).1
          have h2 := hrec d0 s hsub
          rw [h2] at h1
          exact Bool.noConfusion h1
        have hsInv : ∀ c ∈ Cset, dbContains (step d0 s).state.installed c = false :=
          fun c hc => (hinv c hc).1
        rcases ih (step d0 s).state hstepRest hsInv hok with ⟨hmain, hrest⟩
        refine ⟨?_, ?_⟩
        · intro c hc
          refine ⟨(hmain c hc).1, ?_, ?_⟩
          · intro hmem
            rcases List.mem_append.mp hmem with h | h
            · exact (hinv c hc).2.1 h
            · exact (hmain c hc).2.1 h
          · intro hmem
            rcases List.mem_append.mp hmem with h | h
            · exact (hinv c hc).2.2 h
            · exact (hmain c hc).2.2 h
        · intro d hd
          rcases List.mem_cons.mp hd with h | h
          · subst h; exact hd0
          · exact hrest d h

/-! ### Lemmas about a single install invocation -/

theorem downloadPhase_mono (env : Env) (p : String) (pkg : Package)
    (dl : Bool) (st : PMState) (a : String)
    (h : dbContains st.installed a = true) :
    dbContains (downloadPhase env p pkg dl st).state.installed a = true := by
  rcases (downloadPhase_shape env p pkg dl st).1 with he | ⟨e, he, _⟩
  · rw [he]; exact h
  · rw [he, dbContains_dbInsert, h]; simp

theorem downloadPhase_lookup_ne (env : Env) (p : String) (pkg : Package)
    (dl : Bool) (st : PMState) (a : String) (hne : ¬ a = p)
    (ip : InstalledPackage) (h : lookupA a st.installed = some ip) :
    lookupA a (downloadPhase env p pkg dl st).state.installed = some ip := by
  rcases (downloadPhase_shape env p pkg dl st).1 with he | ⟨e, he, _⟩
  · rw [he]; exact h
  · rw [he, lookupA_dbInsert, if_neg hne]; exact h

theorem installBody_mono (env : Env) (sub : String → PMState → Out)
    (hsub : ∀ d s a, dbContains s.installed a = true →
      dbContains (sub d s).state.installed a = true)
    (package : String) (yes dlOnly : Bool) (st : PMState) (a : String)
    (ha : dbContains st.installed a = true) :
    dbContains (installBody env sub package yes dlOnly st).state.installed a
      = true := by
  have hloop : ∀ deps s, dbContains s.installed a = true →
      dbContains (runDeps sub deps s).state.installed a = true :=
    fun deps s h => runDeps_pres sub (fun t => dbContains t.installed a = true)
      (fun d t ht => hsub d t a ht) deps s h
  unfold installBody
  repeat' split
  all_goals dsimp only
  repeat' split
  all_goals
    first
      | exact ha
      | exact hloop _ _ ha
      | exact downloadPhase_mono _ _ _ _ _ _ (hloop _ _ ha)

theorem install_mono (env : Env) :
    ∀ fuel package yes dlOnly st a, dbContains st.installed a = true →
      dbContains (install env fuel package yes dlOnly st).state.installed a
        = true := by
  intro fuel
  induction fuel with
  | zero => intro p y dl st a h; simpa [install] using h
  | succ fuel ih =>
    intro p y dl st a h
    exact installBody_mono env _ (fun d s a' h' => ih d true false s a' h')
      p y dl st a h

theorem installBody_noprompt (env : Env) (sub : String → PMState → Out)
    (hsub : ∀ d s q w, Event.prompt q w ∉ (sub d s).trace)
    (package : String) (dlOnly : Bool) (st : PMState) (q w : String) :
    Event.prompt q w ∉ (installBody env sub package true dlOnly st).trace := by
  have hloop : ∀ deps s, Event.prompt q w ∉ (runDeps sub deps s).trace := by
    intro deps s hmem
    exact (runDeps_trace_sub sub (fun ev => ev ≠ Event.prompt q w)
      (fun d s' ev hev heq => hsub d s' q w (heq ▸ hev)) deps s _ hmem) rfl
  have hdp : ∀ p pkg dl s, Event.prompt q w ∉ (downloadPhase env p pkg dl s).trace := by
    intro p pkg dl s hmem
    rcases (downloadPhase_shape env p pkg dl s).2 _ hmem with h | h | h | h | h | h <;>
      simp at h
  unfold installBody
  repeat' split
  all_goals dsimp only
  repeat' split
  all_goals try (exfalso; simp_all; done)
  all_goals intro hmem
  all_goals try simp only [List.nil_append, List.mem_append] at hmem
  all_goals
    first
      | exact List.not_mem_nil _ hmem
      | exact hloop _ _ hmem
      | (rcases hmem with h | h
         exacts [hloop _ _ h, hdp _ _ _ _ h])

theorem install_noprompt (env : Env) :
    ∀ fuel package dlOnly st q w,
      Event.prompt q w ∉ (install env fuel package true dlOnly st).trace := by
  intro fuel
  induction fuel with
  | zero => intro p dl st q w; simp [install]
  | succ fuel ih =>
    intro p dl st q w
    exact installBody_noprompt env _ (fun d s q' w' => ih d false s q' w') p dl st q w

theorem downloadPhase_newrec (env : Env) (p : String) (pkg : Package)
    (dl : Bool) (s : PMState) (a : String)
    (h : dbContains (downloadPhase env p pkg dl s).state.installed a = true) :
    dbContains s.installed a = true ∨
      Event.recorded a ∈ (downloadPhase env p pkg dl s).trace := by
  rcases (downloadPhase_shape env p pkg dl s).1 with he | ⟨e, he, hrec⟩
  · rw [he] at h; exact Or.inl h
  · rw [he, dbContains_dbInsert] at h
    rcases Bool.or_eq_true_iff.mp h with h2 | h2
    · have : a = p := by simpa using h2
      subst this
      exact Or.inr hrec
    · exact Or.inl h2

theorem installBody_newrec (env : Env) (sub : String → PMState → Out)
    (hsub : ∀ d s a, dbContains (sub d s).state.installed a = true →
      dbContains s.installed a = true ∨ Event.recorded a ∈ (sub d s).trace)
    (package : String) (yes dlOnly : Bool) (st : PMState) (a : String) :
    ∀ o, installBody env sub package yes dlOnly st = o →
      dbContains o.state.installed a = true →
      dbContains st.installed a = true ∨ Event.recorded a ∈ o.trace := by
  have hloopN := runDeps_newrec sub hsub
  intro o ho hcont
  unfold installBody at ho
  repeat' split at ho
  all_goals try dsimp only at ho
  repeat' split at ho
  all_goals subst ho
  all_goals try dsimp only at hcont ⊢
  all_goals
    first
      | exact Or.inl hcont
      | (rcases downloadPhase_newrec env _ _ _ _ a hcont with h | h
         · rcases hloopN _ _ a h with h2 | h2
           · exact Or.inl h2
           · refine Or.inr ?_
             simp only [List.mem_append]
             tauto
         · refine Or.inr ?_
           simp only [List.mem_append]
           tauto)
      | (rcases hloopN _ _ a hcont with h | h
         · exact Or.inl h
         · refine Or.inr ?_
           simp only [List.mem_append]
           tauto)

theorem install_newrec (env : Env) :
    ∀ fuel package yes dlOnly st a,
      dbContains (install env fuel package yes dlOnly st).state.installed a = true →
      dbContains st.installed a = true ∨
        Event.recorded a ∈ (install env fuel package yes dlOnly st).trace := by
  intro fuel
  induction fuel with
  | zero => intro p y dl st a h; simp [install] at h ⊢; exact h
  | succ fuel ih =>
    intro p y dl st a h
    exact installBody_newrec env _ (fun d s a' h' => ih d true false s a' h')
      p y dl st a _ rfl h

theorem installBody_rec (env : Env) (sub : String → PMState → Out)
    (package : String) (st : PMState) :
    ∀ o, installBody env sub package true false st = o → o.res = .ok () →
      dbContains o.state.installed package = true := by
  intro o ho hres
  unfold installBody at ho
  by_cases hin : dbContains st.installed package = true
  · rw [if_pos hin] at ho; subst ho; exact hin
  · rw [if_neg hin] at ho
    cases hfind : find_package env package with
    | none => rw [hfind] at ho; subst ho; simp at hres
    | some pr =>
      obtain ⟨pkg, repo⟩ := pr
      rw [hfind] at ho
      have hc1 : (!pkg.capabilities.isEmpty && !true) = false := by simp
      have hc2 : (!pkg.capabilities.isEmpty && !true &&
          !env.promptAnswer package "capabilities") = false := by simp
      have hc3 : (!pkg.dependencies.isEmpty && !true) = false := by simp
      have hc4 : (!pkg.dependencies.isEmpty && !true &&
          !env.promptAnswer package "dependencies") = false := by simp
      simp only [hc1, hc2, hc3, hc4, Bool.false_eq_true, if_false,
        List.nil_append] at ho
      cases hloopres : (runDeps sub pkg.dependencies st).res with
      | error e => simp only [hloopres] at ho; subst ho; simp at hres
      | ok u =>
        cases u
        simp only [hloopres] at ho
        subst ho
        exact (downloadPhase_ok env package pkg _ hres).2

theorem install_rec (env : Env) :
    ∀ fuel package st, (install env fuel package true false st).res = .ok () →
      dbContains (install env fuel package true false st).state.installed package
        = true := by
  intro fuel
  cases fuel with
  | zero => intro p st h; simp [install] at h
  | succ fuel => intro p st h; exact installBody_rec env _ p st _ rfl h

theorem installBody_chain (env : Env) (sub : String → PMState → Out)
    (hsubRec : ∀ d s, (sub d s).res = .ok () →
      dbContains (sub d s).state.installed d = true)
    (hsubChain : ∀ Cs d s, chainLinked env Cs d →
      (∀ c ∈ Cs, dbContains s.installed c = false) →
      (sub d s).res = .ok () →
      ∀ c ∈ Cs, dbContains (sub d s).state.installed c = false ∧
        Event.recorded c ∉ (sub d s).trace ∧
        Event.extracted c ∉ (sub d s).trace)
    (package : String) (st : PMState) (Cset : List String)
    (hlink : chainLinked env Cset package)
    (hs : ∀ c ∈ Cset, dbContains st.installed c = false) :
    ∀ o, installBody env sub package true false st = o → o.res = .ok () →
      ∀ c ∈ Cset, dbContains o.state.installed c = false ∧
        Event.recorded c ∉ o.trace ∧ Event.extracted c ∉ o.trace := by
  intro o ho hres
  unfold installBody at ho
  by_cases hin : dbContains st.installed package = true
  · rw [if_pos hin] at ho; subst ho
    intro c hc
    exact ⟨hs c hc, by simp, by simp⟩
  · rw [if_neg hin] at ho
    replace hin : dbContains st.installed package = false := by
      simpa using hin
    cases hfind : find_package env package with
    | none => rw [hfind] at ho; subst ho; simp at hres
    | some pr =>
      obtain ⟨pkg, repo⟩ := pr
      rw [hfind] at ho
      have hc1 : (!pkg.capabilities.isEmpty && !true) = false := by simp
      have hc2 : (!pkg.capabilities.isEmpty && !true &&
          !env.promptAnswer package "capabilities") = false := by simp
      have hc3 : (!pkg.dependencies.isEmpty && !true) = false := by simp
      have hc4 : (!pkg.dependencies.isEmpty && !true &&
          !env.promptAnswer package "dependencies") = false := by simp
      simp only [hc1, hc2, hc3, hc4, Bool.false_eq_true, if_false,
        List.nil_append] at ho
      have hdeps : depsOf env package = pkg.dependencies := by
        simp [depsOf, hfind]
      cases hloopres : (runDeps sub pkg.dependencies st).res with
      | error e => simp only [hloopres] at ho; subst ho; simp at hres
      | ok u =>
        cases u
        simp only [hloopres] at ho
        subst ho
        have hsAll : ∀ c ∈ Cset ++ [package],
            dbContains st.installed c = false := by
          intro c hc
          rcases List.mem_append.mp hc with h | h
          · exact hs c h
          · simp at h; subst h; exact hin
        have hchain := runDeps_chain sub (Cset ++ [package]) hsubRec
          pkg.dependencies st
          (fun d hd s' hinv hok => hsubChain (Cset ++ [package]) d s'
            (chainLinked_snoc env package d Cset hlink (hdeps ▸ hd)) hinv hok)
          hsAll hloopres
        obtain ⟨hinv, hnoself⟩ := hchain
        have hpkg : package ∉ Cset := by
          intro hmem
          rcases chainLinked_mem env package Cset hlink package hmem with
            ⟨d, hd1, hd2⟩
          have hd1' : d ∈ pkg.dependencies := hdeps ▸ hd1
          have hdC : d ∈ Cset ++ [package] := by
            rcases hd2 with h | h
            · exact List.mem_append.mpr (Or.inl h)
            · subst h; exact List.mem_append.mpr (Or.inr (by simp))
          exact hnoself d hd1' hdC
        intro c hc
        have hcne : ¬ c = package := fun h => hpkg (h ▸ hc)
        obtain ⟨hcdb, hcrec, hcext⟩ := hinv c (List.mem_append.mpr (Or.inl hc))
        refine ⟨?_, ?_, ?_⟩
        · rcases (downloadPhase_shape env package pkg false
            (runDeps sub pkg.dependencies st).state).1 with he | ⟨e, he, _⟩
          · show dbContains (downloadPhase env package pkg false
              (runDeps sub pkg.dependencies st).state).state.installed c = false
            rw [he]; exact hcdb
          · show dbContains (downloadPhase env package pkg false
              (runDeps sub pkg.dependencies st).state).state.installed c = false
            rw [he, dbContains_dbInsert, hcdb]
            simp [hcne]
        · intro hmem
          rcases List.mem_append.mp hmem with h | h
          · exact hcrec h
          · rcases (downloadPhase_shape env package pkg false
              (runDeps sub pkg.dependencies st).state).2 _ h with
              h' | h' | h' | h' | h' | h'
            · simp at h'
            · simp at h'
            · simp at h'
            · simp at h'
            · simp at h'; exact hcne h'
            · simp at h'
        · intro hmem
          rcases List.mem_append.mp hmem with h | h
          · exact hcext h
          · rcases (downloadPhase_shape env package pkg false
              (runDeps sub pkg.dependencies st).state).2 _ h with
              h' | h' | h' | h' | h' | h'
            · simp at h'
            · simp at h'
            · simp at h'
            · simp at h'; exact hcne h'
            · simp at h'
            · simp at h'

theorem install_chain (env : Env) :
    ∀ fuel Cs d s, chainLinked env Cs d →
      (∀ c ∈ Cs, dbContains s.installed c = false) →
      (install env fuel d true false s).res = .ok () →
      ∀ c ∈ Cs,
        dbContains (install env fuel d true false s).state.installed c = false ∧
        Event.recorded c ∉ (install env fuel d true false s).trace ∧
        Event.extracted c ∉ (install env fuel d true false s).trace := by
  intro fuel
  induction fuel with
  | zero => intro Cs d s _ _ h; simp [install] at h
  | succ fuel ih =>
    intro Cs d s hlink hs hok
    exact installBody_chain env _ (fun d' s' h => install_rec env fuel d' s' h)
      (fun Cs' d' s' hl hi ho => ih Cs' d' s' hl hi ho) d s Cs hlink hs _ rfl hok

theorem installBody_dlOnly_c9 (env : Env) (sub : String → PMState → Out)
    (hsubRec : ∀ d s, (sub d s).res = .ok () →
      dbContains (sub d s).state.installed d = true)
    (hsubMono : ∀ d s a, dbContains s.installed a = true →
      dbContains (sub d s).state.installed a = true)
    (hsubNewrec : ∀ d s a, dbContains (sub d s).state.installed a = true →
      dbContains s.installed a = true ∨ Event.recorded a ∈ (sub d s).trace)
    (hsubChain : ∀ Cs d s, chainLinked env Cs d →
      (∀ c ∈ Cs, dbContains s.installed c = false) →
      (sub d s).res = .ok () →
      ∀ c ∈ Cs, dbContains (sub d s).state.installed c = false ∧
        Event.recorded c ∉ (sub d s).trace ∧
        Event.extracted c ∉ (sub d s).trace)
    (package : String) (yes : Bool) (st : PMState) (pkg : Package)
    (repo : String) (D : String)
    (hin : dbContains st.installed package = false)
    (hfind : find_package env package = some (pkg, repo))
    (hcap : (!pkg.capabilities.isEmpty && !yes &&
      !env.promptAnswer package "capabilities") = false)
    (hdep : (!pkg.dependencies.isEmpty && !yes &&
      !env.promptAnswer package "dependencies") = false)
    (hD : D ∈ pkg.dependencies)
    (hDnot : dbContains st.installed D = false) :
    ∀ o, installBody env sub package yes true st = o → o.res = .ok () →
      dbContains o.state.installed D = true ∧
      Event.recorded D ∈ o.trace ∧
      dbContains o.state.installed package = false ∧
      Event.recorded package ∉ o.trace ∧
      Event.extracted package ∉ o.trace ∧
      Event.downloaded package ∈ o.trace := by
  intro o ho hres
  unfold installBody at ho
  rw [if_neg (by simp [hin] : ¬ dbContains st.installed package = true)] at ho
  rw [hfind] at ho
  dsimp only at ho
  rw [if_neg (by simp [hcap] :
    ¬ (!pkg.capabilities.isEmpty && !yes &&
        !env.promptAnswer package "capabilities") = true)] at ho
  rw [if_neg (by simp [hdep] :
    ¬ (!pkg.dependencies.isEmpty && !yes &&
        !env.promptAnswer package "dependencies") = true)] at ho
  have hdeps : depsOf env package = pkg.dependencies := by
    simp [depsOf, hfind]
  cases hloopres : (runDeps sub pkg.dependencies st).res with
  | error e => simp only [hloopres] at ho; subst ho; simp at hres
  | ok u =>
    cases u
    simp only [hloopres] at ho
    subst ho
    have hresDp : (downloadPhase env package pkg true
        (runDeps sub pkg.dependencies st).state).res = .ok () := hres
    have hdpShape := downloadPhase_dlOnly env package pkg
      (runDeps sub pkg.dependencies st).state
    have hDdb : dbContains (runDeps sub pkg.dependencies st).state.installed D
        = true :=
      runDeps_ok_all sub hsubRec hsubMono pkg.dependencies st hloopres D hD
    have hchain := runDeps_chain sub [package] hsubRec pkg.dependencies st
      (fun d hd s' hinv hok => hsubChain [package] d s'
        (by simpa [chainLinked, hfind] using hd) hinv hok)
      (by intro c hc; simp at hc; subst hc; exact hin) hloopres
    obtain ⟨hinv, _⟩ := hchain
    obtain ⟨hPdb, hPrec, hPext⟩ := hinv package (by simp)
    have hcapTr : ∀ ev ∈ (if (!pkg.capabilities.isEmpty && !yes) = true then
        [Event.prompt package "capabilities"] else ([] : List Event)),
        ev = Event.prompt package "capabilities" := by
      intro ev hev
      split at hev
      · simp at hev
        exact hev
      · simp at hev
    have hdepTr : ∀ ev ∈ (if (!pkg.dependencies.isEmpty && !yes) = true then
        [Event.prompt package "dependencies"] else ([] : List Event)),
        ev = Event.prompt package "dependencies" := by
      intro ev hev
      split at hev
      · simp at hev
        exact hev
      · simp at hev
    refine ⟨?_, ?_, ?_, ?_, ?_, ?_⟩
    · show dbContains (downloadPhase env package pkg true
        (runDeps sub pkg.dependencies st).state).state.installed D = true
      rw [hdpShape.1]; exact hDdb
    · have : Event.recorded D ∈ (runDeps sub pkg.dependencies st).trace := by
        rcases runDeps_newrec sub hsubNewrec pkg.dependencies st D hDdb with h | h
        · rw [hDnot] at h; exact absurd h (by simp)
        · exact h
      simp only [List.mem_append]
      tauto
    · show dbContains (downloadPhase env package pkg true
        (runDeps sub pkg.dependencies st).state).state.installed package = false
      rw [hdpShape.1]; exact hPdb
    · intro hmem
      simp only [List.mem_append] at hmem
      rcases hmem with ((h | h) | h) | h
      · exact Event.noConfusion (hcapTr _ h)
      · exact Event.noConfusion (hdepTr _ h)
      · exact hPrec h
      · rcases hdpShape.2.1 _ h with h' | h' | h' <;> simp at h'
    · intro hmem
      simp only [List.mem_append] at hmem
      rcases hmem with ((h | h) | h) | h
      · exact Event.noConfusion (hcapTr _ h)
      · exact Event.noConfusion (hdepTr _ h)
      · exact hPext h
      · rcases hdpShape.2.1 _ h with h' | h' | h' <;> simp at h'
    · have := hdpShape.2.2 hresDp
      simp only [List.mem_append]
      tauto

theorem install_succ (env : Env) (fuel : Nat) (package : String)
    (yes dlOnly : Bool) (st : PMState) :
    install env (fuel + 1) package yes dlOnly st =
      installBody env (fun d s => install env fuel d true false s)
        package yes dlOnly st := rfl

/-! ### Concrete test data used by the witnesses -/

def emptyState : PMState := ⟨[], [], []⟩

/-- Catalog entry of a package `"p"` depending on `"d"`. -/
def pkgP : Package :=
  ⟨"p", "1.0", "package p", 10, ["d"], "", "https://repo/p.tar.gz",
   none, none, [], none⟩

/-- Catalog entry of the dependency `"d"`. -/
def pkgD : Package :=
  ⟨"d", "1.0", "package d", 5, [], "", "https://repo/d.tar.gz",
   none, none, [], none⟩

/-- A simple environment: one enabled repository whose cached index carries
`pkgP` and `pkgD`, trivial externals. -/
def testEnv : Env where
  repos := [⟨"main", "https://repo", true⟩]
  indexes := [("main", [("p", pkgP), ("d", pkgD)])]
  fetch := fun _ => some [1, 2, 3]
  checksum := fun _ => ""
  b64decode := fun _ => none
  parseKey := fun _ => true
  verify := fun _ _ _ => true
  derivePub := fun _ => List.replicate 32 1
  trustedKeys := []
  promptAnswer := fun _ _ => true
  extract := fun _ => some [("/usr/bin/x", false)]
  now := "2026-01-01T00:00:00Z"
  saveOk := true
  deleteOk := fun _ => true

/-! ### Claim theorems -/

/-- C5: installing a package already present in the Installed-Package
Database terminates successfully, with an empty trace (hence no network
fetch, no prompt, no database save) and a state identical to the initial
one. -/
theorem C5_already_installed_is_noop (env : Env) (fuel : Nat)
    (package : String) (yes dlOnly : Bool) (st : PMState)
    (h : dbContains st.installed package = true) :
    install env (fuel + 1) package yes dlOnly st = ⟨[], .ok (), st⟩ := by
  rw [install_succ]
  unfold installBody
  rw [if_pos h]

/-- C5 witness: a concrete already-installed package; the install returns
`Ok` at once and the state (so the persisted database) is unchanged. -/
theorem C5_witness :
    dbContains (⟨[("p", ⟨"p", "1.0", "t", []⟩)], [], []⟩ : PMState).installed
      "p" = true ∧
    install testEnv 5 "p" false false ⟨[("p", ⟨"p", "1.0", "t", []⟩)], [], []⟩
      = ⟨[], .ok (), ⟨[("p", ⟨"p", "1.0", "t", []⟩)], [], []⟩⟩ :=
  ⟨by decide,
   C5_already_installed_is_noop testEnv 4 "p" false false _ (by decide)⟩

/-- C2: with the install reaching the download step (not already installed,
resolvable, prompts passed, dependency loop succeeded, fetch returned
`data`): a non-empty expected checksum differing from the digest makes the
install fail with `ChecksumMismatch`, with the downloaded artifact removed
from the cache and no database entry for the package; an empty expected
checksum never produces a `ChecksumMismatch` failure. -/
theorem C2_checksum_mismatch (env : Env) (fuel : Nat) (package : String)
    (yes dlOnly : Bool) (st : PMState) (pkg : Package) (repo : String)
    (data : Bytes)
    (h1 : dbContains st.installed package = false)
    (h2 : find_package env package = some (pkg, repo))
    (h3 : (!pkg.capabilities.isEmpty && !yes &&
      !env.promptAnswer package "capabilities") = false)
    (h4 : (!pkg.dependencies.isEmpty && !yes &&
      !env.promptAnswer package "dependencies") = false)
    (h5 : (runDeps (fun d s => install env fuel d true false s)
      pkg.dependencies st).res = .ok ())
    (h6 : env.fetch pkg.url = some data) :
    (env.checksum data ≠ pkg.checksum → pkg.checksum ≠ "" →
      (install env (fuel + 1) package yes dlOnly st).res =
          .error .checksumMismatch ∧
        artifactName package pkg ∉
          (install env (fuel + 1) package yes dlOnly st).state.cache ∧
        dbContains (install env (fuel + 1) package yes dlOnly st).state.installed
          package = false) ∧
    (pkg.checksum = "" →
      (install env (fuel + 1) package yes dlOnly st).res ≠
        .error .checksumMismatch) := by
  rw [install_succ]
  unfold installBody
  rw [if_neg (by simp [h1] : ¬ dbContains st.installed package = true)]
  rw [h2]
  dsimp only
  rw [if_neg (by simp [h3] : ¬ (!pkg.capabilities.isEmpty && !yes &&
    !env.promptAnswer package "capabilities") = true)]
  rw [if_neg (by simp [h4] : ¬ (!pkg.dependencies.isEmpty && !yes &&
    !env.promptAnswer package "dependencies") = true)]
  simp only [h5]
  have hchain := runDeps_chain (fun d s => install env fuel d true false s)
    [package] (fun d s h => install_rec env fuel d s h) pkg.dependencies st
    (fun d hd s' hinv hok => install_chain env fuel [package] d s'
      (by simpa [chainLinked, h2] using hd) hinv hok)
    (by intro c hc; simp at hc; subst hc; exact h1) h5
  obtain ⟨hinv, _⟩ := hchain
  have hPdb := (hinv package (by simp)).1
  constructor
  · intro hne hnz
    rw [downloadPhase_checksum_mismatch env package pkg dlOnly _ data h6 hne hnz]
    refine ⟨rfl, ?_, hPdb⟩
    exact cacheRemove_not_mem _ _
  · intro hz hbad
    exact downloadPhase_empty_checksum env package pkg dlOnly _ hz hbad

/-- Catalog entry with a non-empty expected checksum. -/
def pkgC2 : Package :=
  ⟨"p", "1.0", "package p", 10, [], "deadbeef", "https://repo/p.tar.gz",
   none, none, [], none⟩

/-- Environment whose digest of any download differs from `pkgC2.checksum`. -/
def envC2 : Env :=
  { testEnv with indexes := [("main", [("p", pkgC2)])],
                 checksum := fun _ => "beef" }

/-- C2 witness: a concrete mismatching install fails with
`ChecksumMismatch`, drops the artifact and records nothing, and a concrete
empty-checksum install never reports a checksum mismatch. -/
theorem C2_witness :
    ((install envC2 1 "p" true false emptyState).res =
        .error .checksumMismatch ∧
      artifactName "p" pkgC2 ∉
        (install envC2 1 "p" true false emptyState).state.cache ∧
      dbContains (install envC2 1 "p" true false emptyState).state.installed
        "p" = false) ∧
    (install testEnv 1 "d" true false emptyState).res ≠
      .error .checksumMismatch := by
  constructor
  · exact (C2_checksum_mismatch envC2 0 "p" true false emptyState pkgC2 "main"
      [1, 2, 3] (by decide) (by decide) (by decide) (by decide) (by decide)
      (by decide)).1 (by decide) (by decide)
  · exact (C2_checksum_mismatch testEnv 0 "d" true false emptyState pkgD "main"
      [1, 2, 3] (by decide) (by decide) (by decide) (by decide) (by decide)
      (by decide)).2 rfl

/-- C3 counterexample: removing a package that is not installed does NOT
fail: `remove_package` prints a message and returns success (`Ok`), with
the state untouched.  This refutes the claim that it fails with a
`PackageNotInstalled` error. -/
theorem C3_counterexample :
    (remove_package testEnv emptyState "ghost" false).res = .ok () ∧
    (remove_package testEnv emptyState "ghost" false).state = emptyState := by
  constructor <;> rfl

/-- C3 amended: for a name absent from the Installed-Package Database,
`remove_package` returns success (after printing a not-installed message)
and leaves the database and filesystem unchanged. -/
theorem C3_remove_absent_is_noop (env : Env) (st : PMState) (name : String)
    (purge : Bool) (h : lookupA name st.installed = none) :
    (remove_package env st name purge).res = .ok () ∧
    (remove_package env st name purge).state = st := by
  unfold remove_package
  rw [h]
  exact ⟨rfl, rfl⟩

/-- C3 witness: concrete instance of the amended claim. -/
theorem C3_witness :
    lookupA "ghost" emptyState.installed = none ∧
    ((remove_package testEnv emptyState "ghost" true).res = .ok () ∧
     (remove_package testEnv emptyState "ghost" true).state = emptyState) :=
  ⟨by decide, C3_remove_absent_is_noop testEnv emptyState "ghost" true (by decide)⟩

/-- C10: for an installed package, `remove_package` never fails because of
file-deletion errors — the environment's `deleteOk` oracle is arbitrary
here, and every deletion failure is silently discarded.  If persisting the
database succeeds the result is success and the entry is gone; if
persisting fails the invocation fails with `DatabaseIoError` and the
persisted database still holds the entry. -/
theorem C10_remove_ignores_delete_failures (env : Env) (st : PMState)
    (name : String) (purge : Bool) (ip : InstalledPackage)
    (h : lookupA name st.installed = some ip) :
    (env.saveOk = true →
      (remove_package env st name purge).res = .ok () ∧
      lookupA name (remove_package env st name purge).state.installed = none) ∧
    (env.saveOk = false →
      (remove_package env st name purge).res = .error .databaseIoError ∧
      lookupA name (remove_package env st name purge).state.installed
        = some ip) := by
  unfold remove_package
  rw [h]
  dsimp only
  constructor
  · intro hsv
    rw [if_pos hsv]
    refine ⟨rfl, ?_⟩
    dsimp only
    rw [lookupA_dbRemove]
    simp
  · intro hsv
    rw [if_neg (by simp [hsv] : ¬ env.saveOk = true)]
    exact ⟨rfl, h⟩

/-- Environment in which every filesystem deletion fails. -/
def envC10 : Env := { testEnv with deleteOk := fun _ => false }

/-- State with one installed package owning one on-disk file. -/
def stC10 : PMState :=
  ⟨[("a", ⟨"a", "1.0", "t", ["/usr/bin/a"]⟩)], [("/usr/bin/a", false)], []⟩

/-- C10 witness: with every deletion failing, removal still succeeds and
drops the database entry. -/
theorem C10_witness :
    lookupA "a" stC10.installed = some ⟨"a", "1.0", "t", ["/usr/bin/a"]⟩ ∧
    ((remove_package envC10 stC10 "a" false).res = .ok () ∧
     lookupA "a" (remove_package envC10 stC10 "a" false).state.installed
       = none) :=
  ⟨by decide,
   (C10_remove_ignores_delete_failures envC10 stC10 "a" false
     ⟨"a", "1.0", "t", ["/usr/bin/a"]⟩ (by decide)).1 (by decide)⟩

/-- State for C1: package `a` owns the directory `/usr/lib`; package `b`
owns `/usr/lib/libx.so` (inside that directory) and `/usr/bin/b`. -/
def stC1 : PMState :=
  ⟨[("a", ⟨"a", "1.0", "t", ["/usr/lib"]⟩),
    ("b", ⟨"b", "1.0", "t", ["/usr/lib/libx.so", "/usr/bin/b"]⟩)],
   [("/usr/lib", true), ("/usr/lib/libx.so", false), ("/usr/bin/b", false)],
   []⟩

/-- C1: removing `a` deletes `/usr/lib` with `remove_dir_all`, destroying
`/usr/lib/libx.so` even though it appears in still-installed `b`'s
`owned_files` — the shared-file check `is_file_shared` only compares whole
path strings and is bypassed by recursive directory deletion.  This
violates the shared-ownership invariant of the claim. -/
theorem C1_remove_deletes_shared_file_inside_owned_dir :
    lookupA "b" stC1.installed =
      some ⟨"b", "1.0", "t", ["/usr/lib/libx.so", "/usr/bin/b"]⟩ ∧
    fsExists stC1.fs "/usr/lib/libx.so" = true ∧
    is_file_shared stC1.installed "/usr/lib" "a" = false ∧
    (remove_package testEnv stC1 "a" false).res = .ok () ∧
    lookupA "b" (remove_package testEnv stC1 "a" false).state.installed =
      some ⟨"b", "1.0", "t", ["/usr/lib/libx.so", "/usr/bin/b"]⟩ ∧
    fsExists (remove_package testEnv stC1 "a" false).state.fs
      "/usr/lib/libx.so" = false := by
  refine ⟨by decide, by decide, by decide, rfl, by decide, by decide⟩

/-- C4: ed25519-dalek's `SigningKey::from_keypair_bytes` demands that the
second 32 bytes equal the public key derived from the first 32; for fresh
OsRng output this fails (with overwhelming probability), so
`generate_keypair` returns the propagated error and writes no files. -/
theorem C4_generate_keypair_fails (env : Env) (rnd : Bytes) (ks : KeyStore)
    (name : String) (hlen : rnd.length = 64)
    (hmismatch : env.derivePub (rnd.take 32) ≠ rnd.drop 32) :
    generate_keypair env rnd ks name = .error () := by
  unfold generate_keypair from_keypair_bytes
  have h1 : (rnd.length != 64) = false := by simp [hlen]
  rw [h1]
  have h2 : (env.parseKey (rnd.drop 32) &&
      (env.derivePub (rnd.take 32) == rnd.drop 32)) = false := by
    simp [hmismatch]
  simp only [Bool.false_eq_true, if_false, h2]

/-- C4 witness: all-zero OsRng output (any value whose embedded half is
not the derived public key behaves the same) makes keygen fail. -/
theorem C4_witness :
    (List.replicate 64 0 : Bytes).length = 64 ∧
    testEnv.derivePub ((List.replicate 64 0 : Bytes).take 32) ≠
      (List.replicate 64 0 : Bytes).drop 32 ∧
    generate_keypair testEnv (List.replicate 64 0) ⟨[], []⟩ "default"
      = .error () :=
  ⟨by decide, by decide,
   C4_generate_keypair_fails testEnv _ _ "default" (by decide) (by decide)⟩

/-- C9: a download-only install of `package` (not installed, resolvable,
prompts passed) that succeeds fully installs a missing dependency `D`
(recorded in the database, with a `recorded` event in the trace, because the
recursive sub-install runs with `download_only = false`), while `package`
itself is downloaded but never extracted or recorded. -/
theorem C9_download_only_installs_deps (env : Env) (fuel : Nat)
    (package : String) (yes : Bool) (st : PMState) (pkg : Package)
    (repo : String) (D : String)
    (hin : dbContains st.installed package = false)
    (hfind : find_package env package = some (pkg, repo))
    (hcap : (!pkg.capabilities.isEmpty && !yes &&
      !env.promptAnswer package "capabilities") = false)
    (hdep : (!pkg.dependencies.isEmpty && !yes &&
      !env.promptAnswer package "dependencies") = false)
    (hD : D ∈ pkg.dependencies)
    (hDnot : dbContains st.installed D = false)
    (hok : (install env (fuel + 1) package yes true st).res = .ok ()) :
    dbContains (install env (fuel + 1) package yes true st).state.installed D
      = true ∧
    Event.recorded D ∈ (install env (fuel + 1) package yes true st).trace ∧
    dbContains (install env (fuel + 1) package yes true st).state.installed
      package = false ∧
    Event.recorded package ∉ (install env (fuel + 1) package yes true st).trace ∧
    Event.extracted package ∉ (install env (fuel + 1) package yes true st).trace ∧
    Event.downloaded package ∈ (install env (fuel + 1) package yes true st).trace :=
  installBody_dlOnly_c9 env _
    (fun d s h => install_rec env fuel d s h)
    (fun d s a h => install_mono env fuel d true false s a h)
    (fun d s a h => install_newrec env fuel d true false s a h)
    (fun Cs d s hl hi ho => install_chain env fuel Cs d s hl hi ho)
    package yes st pkg repo D hin hfind hcap hdep hD hDnot _ rfl hok

/-- C9 witness: download-only install of `"p"` (which depends on `"d"`)
fully installs `"d"` and leaves `"p"` unrecorded. -/
theorem C9_witness :
    dbContains (install testEnv 2 "p" true true emptyState).state.installed
      "d" = true ∧
    Event.recorded "d" ∈ (install testEnv 2 "p" true true emptyState).trace ∧
    dbContains (install testEnv 2 "p" true true emptyState).state.installed
      "p" = false ∧
    Event.recorded "p" ∉ (install testEnv 2 "p" true true emptyState).trace ∧
    Event.extracted "p" ∉ (install testEnv 2 "p" true true emptyState).trace ∧
    Event.downloaded "p" ∈ (install testEnv 2 "p" true true emptyState).trace :=
  C9_download_only_installs_deps testEnv 1 "p" true emptyState pkgP "main" "d"
    (by decide) (by decide) (by decide) (by decide) (by decide) (by decide)
    (by decide)

theorem installBody_c6 (env : Env) (sub : String → PMState → Out)
    (hsubRec : ∀ d s, (sub d s).res = .ok () →
      dbContains (sub d s).state.installed d = true)
    (hsubMono : ∀ d s a, dbContains s.installed a = true →
      dbContains (sub d s).state.installed a = true)
    (hsubNewrec : ∀ d s a, dbContains (sub d s).state.installed a = true →
      dbContains s.installed a = true ∨ Event.recorded a ∈ (sub d s).trace)
    (package : String) (yes : Bool) (st : PMState) (pkg : Package)
    (repo : String) (D : String)
    (hin : dbContains st.installed package = false)
    (hfind : find_package env package = some (pkg, repo))
    (hD : D ∈ pkg.dependencies)
    (hDnot : dbContains st.installed D = false) :
    ∀ o, installBody env sub package yes false st = o → o.res = .ok () →
      dbContains o.state.installed package = true →
      (∃ t1 t2, o.trace = t1 ++ Event.recorded package :: t2 ∧
        Event.recorded D ∈ t1) ∧
      (yes = false → Event.prompt package "dependencies" ∈ o.trace) := by
  intro o ho hres hPfin
  unfold installBody at ho
  rw [if_neg (by simp [hin] : ¬ dbContains st.installed package = true)] at ho
  rw [hfind] at ho
  dsimp only at ho
  by_cases hc1 : (!pkg.capabilities.isEmpty && !yes &&
      !env.promptAnswer package "capabilities") = true
  · rw [if_pos hc1] at ho
    subst ho
    rw [hin] at hPfin
    exact absurd hPfin (by simp)
  · rw [if_neg hc1] at ho
    by_cases hc2 : (!pkg.dependencies.isEmpty && !yes &&
        !env.promptAnswer package "dependencies") = true
    · rw [if_pos hc2] at ho
      subst ho
      rw [hin] at hPfin
      exact absurd hPfin (by simp)
    · rw [if_neg hc2] at ho
      cases hloopres : (runDeps sub pkg.dependencies st).res with
      | error e => simp only [hloopres] at ho; subst ho; simp at hres
      | ok u =>
        cases u
        simp only [hloopres] at ho
        subst ho
        have hresDp : (downloadPhase env package pkg false
            (runDeps sub pkg.dependencies st).state).res = .ok () := hres
        obtain ⟨⟨tr0, htr0⟩, _⟩ := downloadPhase_ok env package pkg _ hresDp
        have hDdb : dbContains
            (runDeps sub pkg.dependencies st).state.installed D = true :=
          runDeps_ok_all sub hsubRec hsubMono pkg.dependencies st hloopres D hD
        have hDrec : Event.recorded D ∈
            (runDeps sub pkg.dependencies st).trace := by
          rcases runDeps_newrec sub hsubNewrec pkg.dependencies st D hDdb with
            h | h
          · rw [hDnot] at h; exact absurd h (by simp)
          · exact h
        constructor
        · refine ⟨(if (!pkg.capabilities.isEmpty && !yes) = true then
              [Event.prompt package "capabilities"] else []) ++
            (if (!pkg.dependencies.isEmpty && !yes) = true then
              [Event.prompt package "dependencies"] else []) ++
            (runDeps sub pkg.dependencies st).trace ++ tr0 ++
            [Event.extracted package], [Event.savedDb], ?_, ?_⟩
          · show _ ++ _ ++ _ ++ (downloadPhase env package pkg false
              (runDeps sub pkg.dependencies st).state).trace = _
            rw [htr0]
            simp [List.append_assoc]
          · simp only [List.mem_append]
            tauto
        · intro hyes
          subst hyes
          have hne : pkg.dependencies.isEmpty = false := by
            cases hpd : pkg.dependencies with
            | nil => rw [hpd] at hD; simp at hD
            | cons a l => simp [hpd]
          have hcond : (!pkg.dependencies.isEmpty && !false) = true := by
            simp [hne]
          show Event.prompt package "dependencies" ∈ _ ++ _ ++ _ ++ _
          rw [if_pos hcond]
          simp only [List.mem_append]
          simp

/-- C6: when a (non-download-only) install of `package` succeeds and the
package ends up recorded, a previously missing dependency `D` is recorded
in the database strictly before `package` is (the trace splits around the
single `recorded package` event with `recorded D` earlier); with
`assume_yes` no prompt is ever shown (sub-installs always run with
`yes = true`); without `assume_yes` the dependency confirmation prompt is
shown at the top level. -/
theorem C6_dependency_recorded_first (env : Env) (fuel : Nat)
    (package : String) (yes : Bool) (st : PMState) (pkg : Package)
    (repo : String) (D : String)
    (hin : dbContains st.installed package = false)
    (hfind : find_package env package = some (pkg, repo))
    (hD : D ∈ pkg.dependencies)
    (hDnot : dbContains st.installed D = false)
    (hok : (install env (fuel + 1) package yes false st).res = .ok ())
    (hPfin : dbContains
      (install env (fuel + 1) package yes false st).state.installed package
        = true) :
    (∃ t1 t2, (install env (fuel + 1) package yes false st).trace =
      t1 ++ Event.recorded package :: t2 ∧ Event.recorded D ∈ t1) ∧
    (yes = true → ∀ q w, Event.prompt q w ∉
      (install env (fuel + 1) package yes false st).trace) ∧
    (yes = false → Event.prompt package "dependencies" ∈
      (install env (fuel + 1) package yes false st).trace) := by
  have hb := installBody_c6 env (fun d s => install env fuel d true false s)
    (fun d s h => install_rec env fuel d s h)
    (fun d s a h => install_mono env fuel d true false s a h)
    (fun d s a h => install_newrec env fuel d true false s a h)
    package yes st pkg repo D hin hfind hD hDnot _ rfl hok hPfin
  refine ⟨hb.1, ?_, hb.2⟩
  intro hyes
  subst hyes
  exact fun q w => install_noprompt env (fuel + 1) package false st q w

/-- C6 witness: installing `"p"` (depending on the absent `"d"`) with
`assume_yes` records `"d"` before `"p"` and shows no prompt. -/
theorem C6_witness :
    ((∃ t1 t2, (install testEnv 2 "p" true false emptyState).trace =
      t1 ++ Event.recorded "p" :: t2 ∧ Event.recorded "d" ∈ t1) ∧
     (true = true → ∀ q w, Event.prompt q w ∉
       (install testEnv 2 "p" true false emptyState).trace) ∧
     (true = false → Event.prompt "p" "dependencies" ∈
       (install testEnv 2 "p" true false emptyState).trace)) :=
  C6_dependency_recorded_first testEnv 1 "p" true emptyState pkgP "main" "d"
    (by decide) (by decide) (by decide) (by decide) (by decide) (by decide)

theorem findVerifying_sound (env : Env) (data sigBytes : Bytes) :
    ∀ keys k, findVerifying env data sigBytes keys = some k →
      env.verify k data sigBytes = true := by
  intro keys
  induction keys with
  | nil => intro k h; simp [findVerifying] at h
  | cons e es ih =>
    intro k h
    unfold findVerifying at h
    split at h
    · rename_i hcond
      simp at h
      subst h
      simp only [Bool.and_eq_true] at hcond
      exact hcond.2
    · exact ih k h

/-- C7: error-case analysis of `verify_package_signature`.  Base64 failure
or wrong signature length gives `MalformedSignature`; a named signer whose
key file is absent gives `UnknownSigner`, and whose stored key is not 32
bytes gives `MalformedKey`; without a named signer the trusted keys are
scanned in directory order via `findVerifying`, success of some key gives
`Ok` and no matching key gives `NoTrustedSignerMatched`. -/
theorem C7_verify_signature_cases (env : Env) (data : Bytes) (sigStr : String) :
    (∀ signer, env.b64decode sigStr = none →
      verify_package_signature env data sigStr signer =
        .error .malformedSignature) ∧
    (∀ signer sigBytes, env.b64decode sigStr = some sigBytes →
      sigBytes.length ≠ 64 →
      verify_package_signature env data sigStr signer =
        .error .malformedSignature) ∧
    (∀ keyId sigBytes, env.b64decode sigStr = some sigBytes →
      sigBytes.length = 64 → lookupA keyId env.trustedKeys = none →
      verify_package_signature env data sigStr (some keyId) =
        .error .unknownSigner) ∧
    (∀ keyId sigBytes keyData, env.b64decode sigStr = some sigBytes →
      sigBytes.length = 64 → lookupA keyId env.trustedKeys = some keyData →
      keyData.length ≠ 32 →
      verify_package_signature env data sigStr (some keyId) =
        .error .malformedKey) ∧
    (∀ sigBytes, env.b64decode sigStr = some sigBytes → sigBytes.length = 64 →
      (∃ k, findVerifying env data sigBytes env.trustedKeys = some k) →
      verify_package_signature env data sigStr none = .ok ()) ∧
    (∀ sigBytes, env.b64decode sigStr = some sigBytes → sigBytes.length = 64 →
      findVerifying env data sigBytes env.trustedKeys = none →
      verify_package_signature env data sigStr none =
        .error .noTrustedSignerMatched) := by
  refine ⟨?_, ?_, ?_, ?_, ?_, ?_⟩
  · intro signer hdec
    simp [verify_package_signature, hdec]
  · intro signer sigBytes hdec hne
    simp [verify_package_signature, hdec, hne]
  · intro keyId sigBytes hdec hlen hlook
    simp [verify_package_signature, hdec, hlen, hlook]
  · intro keyId sigBytes keyData hdec hlen hlook hkl
    simp [verify_package_signature, hdec, hlen, hlook, hkl]
  · intro sigBytes hdec hlen hex
    obtain ⟨k, hk⟩ := hex
    simp [verify_package_signature, hdec, hlen, hk,
      findVerifying_sound env data sigBytes env.trustedKeys k hk]
  · intro sigBytes hdec hlen hfind
    simp [verify_package_signature, hdec, hlen, hfind]

/-- Environment whose base64 decoder yields a 64-byte signature and with
one valid trusted key. -/
def envC7ok : Env :=
  { testEnv with b64decode := fun _ => some (List.replicate 64 0),
                 trustedKeys := [("k", List.replicate 32 7)] }

/-- Same decoder but an empty trusted-key store. -/
def envC7none : Env :=
  { testEnv with b64decode := fun _ => some (List.replicate 64 0) }

/-- Same decoder but a trusted key of the wrong stored length. -/
def envC7badkey : Env :=
  { testEnv with b64decode := fun _ => some (List.replicate 64 0),
                 trustedKeys := [("k", [0])] }

/-- Decoder producing a too-short signature. -/
def envC7short : Env :=
  { testEnv with b64decode := fun _ => some [0] }

/-- C7 witness: one concrete run through each error and success case. -/
theorem C7_witness :
    verify_package_signature testEnv [1] "sig" none =
      .error .malformedSignature ∧
    verify_package_signature envC7short [1] "sig" none =
      .error .malformedSignature ∧
    verify_package_signature envC7none [1] "sig" (some "k") =
      .error .unknownSigner ∧
    verify_package_signature envC7badkey [1] "sig" (some "k") =
      .error .malformedKey ∧
    verify_package_signature envC7ok [1] "sig" none = .ok () ∧
    verify_package_signature envC7none [1] "sig" none =
      .error .noTrustedSignerMatched := by
  refine ⟨?_, ?_, ?_, ?_, ?_, ?_⟩
  · exact (C7_verify_signature_cases testEnv [1] "sig").1 none (by decide)
  · exact (C7_verify_signature_cases envC7short [1] "sig").2.1 none [0]
      (by decide) (by decide)
  · exact (C7_verify_signature_cases envC7none [1] "sig").2.2.1 "k"
      (List.replicate 64 0) (by decide) (by decide) (by decide)
  · exact (C7_verify_signature_cases envC7badkey [1] "sig").2.2.2.1 "k"
      (List.replicate 64 0) [0] (by decide) (by decide) (by decide) (by decide)
  · exact (C7_verify_signature_cases envC7ok [1] "sig").2.2.2.2.1
      (List.replicate 64 0) (by decide) (by decide)
      ⟨List.replicate 32 7, by decide⟩
  · exact (C7_verify_signature_cases envC7none [1] "sig").2.2.2.2.2
      (List.replicate 64 0) (by decide) (by decide) (by decide)

theorem installBody_pres (env : Env) (sub : String → PMState → Out)
    (name : String) (ip : InstalledPackage)
    (hfindN : find_package env name = none)
    (hsub : ∀ d s, lookupA name s.installed = some ip →
      lookupA name (sub d s).state.installed = some ip)
    (package : String) (yes dl : Bool) (st : PMState)
    (h : lookupA name st.installed = some ip) :
    lookupA name (installBody env sub package yes dl st).state.installed
      = some ip := by
  unfold installBody
  by_cases hin : dbContains st.installed package = true
  · rw [if_pos hin]; exact h
  · rw [if_neg hin]
    cases hfindP : find_package env package with
    | none => exact h
    | some pr =>
      obtain ⟨pkg, repo⟩ := pr
      dsimp only
      have hne : ¬ name = package := by
        intro hEq
        rw [hEq, hfindP] at hfindN
        exact Option.noConfusion hfindN
      have hloop : lookupA name
          (runDeps sub pkg.dependencies st).state.installed = some ip :=
        runDeps_pres sub (fun t => lookupA name t.installed = some ip)
          hsub _ st h
      split
      · exact h
      · split
        · exact h
        · split
          · exact hloop
          · exact downloadPhase_lookup_ne env package pkg dl _ name hne ip hloop

theorem install_pres_lookup (env : Env) (name : String) (ip : InstalledPackage)
    (hfindN : find_package env name = none) :
    ∀ fuel package yes dl st, lookupA name st.installed = some ip →
      lookupA name (install env fuel package yes dl st).state.installed
        = some ip := by
  intro fuel
  induction fuel with
  | zero => intro p y dl st h; simpa [install] using h
  | succ fuel ih =>
    intro p y dl st h
    exact installBody_pres env _ name ip hfindN
      (fun d s hs => ih d true false s hs) p y dl st h

theorem remove_pres_lookup (env : Env) (s : PMState) (q : String)
    (purge : Bool) (name : String) (ip : InstalledPackage)
    (hne : ¬ q = name) (h : lookupA name s.installed = some ip) :
    lookupA name (remove_package env s q purge).state.installed = some ip := by
  unfold remove_package
  cases hq : lookupA q s.installed with
  | none => exact h
  | some ipq =>
    dsimp only
    split
    · dsimp only
      rw [lookupA_dbRemove, if_neg (fun hh => hne hh.symm)]
      exact h
    · exact h

theorem runQueue_pres (env : Env) (fuel : Nat) (name : String)
    (ip : InstalledPackage) (hfindN : find_package env name = none) :
    ∀ queue s, name ∉ queue → lookupA name s.installed = some ip →
      lookupA name (runQueue env fuel queue s).state.installed = some ip := by
  intro queue
  induction queue with
  | nil => intro s _ h; simpa [runQueue] using h
  | cons q rest ih =>
    intro s hnot h
    have hqne : ¬ q = name := by
      intro hEq
      exact hnot (by simp [hEq])
    have hrest : name ∉ rest := fun hm => hnot (List.mem_cons_of_mem _ hm)
    unfold runQueue
    have hrm := remove_pres_lookup env s q false name ip hqne h
    cases hres1 : (remove_package env s q false).res with
    | error e => simp only [hres1]; exact hrm
    | ok u =>
      cases u
      simp only [hres1]
      have hinst := install_pres_lookup env name ip hfindN fuel q true false
        (remove_package env s q false).state hrm
      cases hres2 : (install env fuel q true false
          (remove_package env s q false).state).res with
      | error e => simp only [hres2]; exact hinst
      | ok u2 =>
        cases u2
        simp only [hres2]
        exact ih _ hrest hinst

theorem upgradeScan_queue_keys (env : Env) :
    ∀ db n, n ∈ (upgradeScan env db).2 → n ∈ db.map Prod.fst := by
  intro db
  induction db with
  | nil => intro n hn; simp [upgradeScan] at hn
  | cons e rest ih =>
    obtain ⟨k, ip⟩ := e
    intro n hn
    unfold upgradeScan at hn
    cases hf : find_package env k with
    | some pr =>
      obtain ⟨pkg, r⟩ := pr
      simp only [hf] at hn
      by_cases hv : (pkg.version != ip.version) = true
      · rw [if_pos hv] at hn
        rcases List.mem_cons.mp hn with h | h
        · simp [h]
        · simp [ih n h]
      · rw [if_neg hv] at hn
        simp [ih n hn]
    | none =>
      simp only [hf] at hn
      simp [ih n hn]

theorem upgradeScan_mem (env : Env) :
    ∀ db, (db.map Prod.fst).Nodup → ∀ name,
      (name ∈ (upgradeScan env db).2 ↔
        ∃ ip pkg repo, lookupA name db = some ip ∧
          find_package env name = some (pkg, repo) ∧
          pkg.version ≠ ip.version) := by
  intro db
  induction db with
  | nil => intro _ name; simp [upgradeScan, lookupA]
  | cons e rest ih =>
    obtain ⟨k, ip0⟩ := e
    intro hnodup name
    have hnodup2 : (k :: rest.map Prod.fst).Nodup := by
      rw [List.map_cons] at hnodup; exact hnodup
    obtain ⟨hknotin, hrestnodup⟩ := List.nodup_cons.mp hnodup2
    have hfromRest : name ∈ (upgradeScan env rest).2 →
        ∃ ip pkg repo, lookupA name ((k, ip0) :: rest) = some ip ∧
          find_package env name = some (pkg, repo) ∧
          pkg.version ≠ ip.version := by
      intro h
      have hkeys := upgradeScan_queue_keys env rest name h
      have hne : ¬ k = name := by
        intro hEq
        exact hknotin (hEq ▸ hkeys)
      rcases (ih hrestnodup name).mp h with ⟨ip, pkg, r, hlook, hfind, hver⟩
      exact ⟨ip, pkg, r, by simp [lookupA, hne, hlook], hfind, hver⟩
    constructor
    · intro hn
      unfold upgradeScan at hn
      cases hf : find_package env k with
      | some pr =>
        obtain ⟨pkg, r⟩ := pr
        simp only [hf] at hn
        by_cases hv : (pkg.version != ip0.version) = true
        · rw [if_pos hv] at hn
          rcases List.mem_cons.mp hn with h | h
          · subst h
            refine ⟨ip0, pkg, r, by simp [lookupA], hf, ?_⟩
            simpa using hv
          · exact hfromRest h
        · rw [if_neg hv] at hn
          exact hfromRest hn
      | none =>
        simp only [hf] at hn
        exact hfromRest hn
    · rintro ⟨ip, pkg, r, hlook, hfind, hver⟩
      unfold upgradeScan
      by_cases hkn : k = name
      · subst hkn
        have hip : ip = ip0 := by
          simp [lookupA] at hlook
          exact hlook.symm
        subst hip
        rw [hfind]
        dsimp only
        rw [if_pos (by simpa using hver)]
        simp
      · have hlook' : lookupA name rest = some ip := by
          simpa [lookupA, hkn] using hlook
        have htail := (ih hrestnodup name).mpr ⟨ip, pkg, r, hlook', hfind, hver⟩
        cases hf : find_package env k with
        | some pr =>
          obtain ⟨pkg0, r0⟩ := pr
          dsimp only
          by_cases hv : (pkg0.version != ip0.version) = true
          · rw [if_pos hv]
            exact List.mem_cons_of_mem _ htail
          · rw [if_neg hv]
            exact htail
        | none => exact htail

theorem upgradeScan_warned (env : Env) :
    ∀ db name ip, lookupA name db = some ip → find_package env name = none →
      Event.warned name ∈ (upgradeScan env db).1 := by
  intro db
  induction db with
  | nil => intro name ip h; simp [lookupA] at h
  | cons e rest ih =>
    obtain ⟨k, ip0⟩ := e
    intro name ip hlook hfind
    unfold upgradeScan
    by_cases hkn : k = name
    · subst hkn
      rw [hfind]
      simp
    · have hlook' : lookupA name rest = some ip := by
        simpa [lookupA, hkn] using hlook
      have htail := ih name ip hlook' hfind
      cases hf : find_package env k with
      | some pr =>
        obtain ⟨pkg, r⟩ := pr
        dsimp only
        by_cases hv : (pkg.version != ip0.version) = true
        · rw [if_pos hv]; exact htail
        · rw [if_neg hv]; exact htail
      | none => exact List.mem_cons_of_mem _ htail

/-- C8: the upgrade scan queues exactly the installed packages that
resolve in the catalog with a version different (any inequality) from the
installed one; an installed package that does not resolve is warned about
in the trace, never queued, and still present (unchanged) in the database
after the whole upgrade; and when nothing is queued the upgrade succeeds
without touching the state. -/
theorem C8_upgrade_queue_and_skip (env : Env) (fuel : Nat) (yes : Bool)
    (st : PMState) (hnodup : (st.installed.map Prod.fst).Nodup) :
    (∀ name, name ∈ (upgradeScan env st.installed).2 ↔
      ∃ ip pkg repo, lookupA name st.installed = some ip ∧
        find_package env name = some (pkg, repo) ∧
        pkg.version ≠ ip.version) ∧
    (∀ name ip, lookupA name st.installed = some ip →
      find_package env name = none →
      Event.warned name ∈ (upgrade_all env fuel yes st).trace ∧
      name ∉ (upgradeScan env st.installed).2 ∧
      lookupA name (upgrade_all env fuel yes st).state.installed = some ip) ∧
    ((upgradeScan env st.installed).2 = [] →
      upgrade_all env fuel yes st =
        ⟨(upgradeScan env st.installed).1, .ok (), st⟩) := by
  refine ⟨upgradeScan_mem env st.installed hnodup, ?_, ?_⟩
  · intro name ip hlook hfind
    have hwarn := upgradeScan_warned env st.installed name ip hlook hfind
    have hnotq : name ∉ (upgradeScan env st.installed).2 := by
      intro hq
      rcases (upgradeScan_mem env st.installed hnodup name).mp hq with
        ⟨_, _, _, _, hf, _⟩
      rw [hfind] at hf
      exact Option.noConfusion hf
    refine ⟨?_, hnotq, ?_⟩
    · unfold upgrade_all
      dsimp only
      split
      · exact hwarn
      · split
        · exact List.mem_append_left _ hwarn
        · exact List.mem_append_left _ (List.mem_append_left _ hwarn)
    · unfold upgrade_all
      dsimp only
      split
      · exact hlook
      · split
        · exact hlook
        · exact runQueue_pres env fuel name ip hfind _ st hnotq hlook
  · intro hq
    unfold upgrade_all
    dsimp only
    rw [if_pos (by rw [hq]; rfl :
      (upgradeScan env st.installed).2.isEmpty = true)]

/-- Catalog entry for `"x"` at a newer version than the installed one. -/
def pkgC8x : Package :=
  ⟨"x", "1.1", "package x", 10, [], "", "https://repo/x.tar.gz",
   none, none, [], none⟩

def envC8 : Env := { testEnv with indexes := [("main", [("x", pkgC8x)])] }

/-- Installed database with `"x"` at 1.0 and `"gone"` absent from every
repository index. -/
def stC8 : PMState :=
  ⟨[("x", ⟨"x", "1.0", "t", []⟩), ("gone", ⟨"gone", "1.0", "t", []⟩)], [], []⟩

/-- C8 witness: `"x"` (1.0 installed, 1.1 in the catalog) is queued;
`"gone"` produces a warning, is not queued and survives the upgrade. -/
theorem C8_witness :
    "x" ∈ (upgradeScan envC8 stC8.installed).2 ∧
    (Event.warned "gone" ∈ (upgrade_all envC8 3 true stC8).trace ∧
     "gone" ∉ (upgradeScan envC8 stC8.installed).2 ∧
     lookupA "gone" (upgrade_all envC8 3 true stC8).state.installed =
       some ⟨"gone", "1.0", "t", []⟩) := by
  constructor
  · exact ((C8_upgrade_queue_and_skip envC8 3 true stC8 (by decide)).1
      "x").mpr ⟨⟨"x", "1.0", "t", []⟩, pkgC8x, "main", by decide, by decide,
        by decide⟩
  · exact (C8_upgrade_queue_and_skip envC8 3 true stC8 (by decide)).2.1
      "gone" ⟨"gone", "1.0", "t", []⟩ (by decide) (by decide)
